import Mathlib

/-!
# Verification of the SmartCook recipe service (`src/main.py`)

A shallow embedding of the recipe-management HTTP service: the recipe
store with its JSON-serialized ingredient column, the CRUD handlers
(`get_recipes`, `create_recipe`, `delete_recipe`) and the AI-suggestion
handler (`suggest_ai_recipe`) with its local fallback path.

Strings are Lean `String`s (sequences of Unicode scalar values).  The
JSON serialization of the ingredient list (`json.dumps` on a Python
`list[str]`, `json.loads` on the stored text) is modelled by an
executable printer and parser over `List Char`, restricted to the one
JSON shape this column ever holds: arrays of strings.  Python strings
may additionally hold lone surrogate code points, which Lean `Char`
cannot represent; the parser models a decoded lone surrogate as a
failure — no output of the printer ever contains one.
-/

namespace SmartCook

/-! ## JSON serialization of the ingredient list

Models `json.dumps(list_of_str)` with CPython's defaults
(`ensure_ascii=True`, item separator `", "`) and the fragment of
`json.loads` that parses an array of strings. -/

/-- Lower-case hexadecimal digit for `n < 16`, as CPython's
`\uXXXX` escapes print it. -/
def toHexDigit (n : Nat) : Char :=
  if n < 10 then Char.ofNat (48 + n) else Char.ofNat (87 + n)

/-- The four lower-case hex digits of `n < 0x10000`, most significant first. -/
def hex4 (n : Nat) : List Char :=
  [toHexDigit (n / 4096 % 16), toHexDigit (n / 256 % 16),
   toHexDigit (n / 16 % 16), toHexDigit (n % 16)]

/-- How `json.dumps` (with `ensure_ascii=True`, the default used by the
service) renders one character inside a string literal: the two-character
escapes for quote, backslash and the common control characters, `\u00XX`
for the remaining control characters, the character itself for printable
ASCII (`0x20`–`0x7e`), `\uXXXX` for other characters of the Basic
Multilingual Plane, and a surrogate pair of `\uXXXX` escapes beyond it. -/
def escapeChar (c : Char) : List Char :=
  if c = '"' then ['\\', '"']
  else if c = '\\' then ['\\', '\\']
  else if c = '\n' then ['\\', 'n']
  else if c = '\t' then ['\\', 't']
  else if c = '\r' then ['\\', 'r']
  else if c = '\x08' then ['\\', 'b']
  else if c = '\x0c' then ['\\', 'f']
  else if c.toNat < 0x20 then '\\' :: 'u' :: hex4 c.toNat
  else if c.toNat < 0x7f then [c]
  else if c.toNat < 0x10000 then '\\' :: 'u' :: hex4 c.toNat
  else
    ('\\' :: 'u' :: hex4 (0xd800 + (c.toNat - 0x10000) / 0x400)) ++
    ('\\' :: 'u' :: hex4 (0xdc00 + (c.toNat - 0x10000) % 0x400))

/-- A JSON string literal: the escaped characters between double quotes. -/
def encodeString (s : String) : List Char :=
  '"' :: (s.data.map escapeChar).flatten ++ ['"']

/-- `json.dumps` on a list of strings with the default item separator
`", "`: `[]` for the empty list, otherwise the bracketed,
comma-separated string literals. -/
def dumpsList (xs : List String) : String :=
  match xs with
  | [] => "[]"
  | x :: rest =>
    String.mk ('[' :: (encodeString x ++
      (rest.map (fun s => ',' :: ' ' :: encodeString s)).flatten ++ [']']))

/-- Numeric value of a hexadecimal digit character, upper or lower case. -/
def hexVal (c : Char) : Option Nat :=
  if 48 ≤ c.toNat ∧ c.toNat ≤ 57 then some (c.toNat - 48)
  else if 97 ≤ c.toNat ∧ c.toNat ≤ 102 then some (c.toNat - 87)
  else if 65 ≤ c.toNat ∧ c.toNat ≤ 70 then some (c.toNat - 55)
  else none

/-!
### The string scanner of `json.loads`

`parseStringBody`, `parseEscape`, `parseU` and `parseULow` together
mirror `json.loads`' strict string scanner: the named escapes,
`\uXXXX` with surrogate-pair recombination, literal characters at or
above `0x20`, failure on a raw control character, an unknown escape or
a truncated input.  A `\uXXXX` escape that decodes to a lone
surrogate — which CPython would keep as a lone surrogate code unit, a
value no Lean `Char` can hold — is modelled as failure; `escapeChar`
never emits one.
-/

mutual

/-- Parse the body of a JSON string literal (the opening quote already
consumed): returns the decoded characters and the input after the
closing quote. -/
def parseStringBody : List Char → Option (List Char × List Char)
  | [] => none
  | c :: rest =>
    if c = '"' then some ([], rest)
    else if c = '\\' then parseEscape rest
    else if c.toNat < 0x20 then none
    else (parseStringBody rest).map (fun p => (c :: p.1, p.2))

/-- The character after a backslash: a named escape or `\uXXXX`. -/
def parseEscape : List Char → Option (List Char × List Char)
  | [] => none
  | e :: rs =>
    if e = '"' then (parseStringBody rs).map (fun p => ('"' :: p.1, p.2))
    else if e = '\\' then (parseStringBody rs).map (fun p => ('\\' :: p.1, p.2))
    else if e = '/' then (parseStringBody rs).map (fun p => ('/' :: p.1, p.2))
    else if e = 'b' then (parseStringBody rs).map (fun p => ('\x08' :: p.1, p.2))
    else if e = 'f' then (parseStringBody rs).map (fun p => ('\x0c' :: p.1, p.2))
    else if e = 'n' then (parseStringBody rs).map (fun p => ('\n' :: p.1, p.2))
    else if e = 'r' then (parseStringBody rs).map (fun p => ('\r' :: p.1, p.2))
    else if e = 't' then (parseStringBody rs).map (fun p => ('\t' :: p.1, p.2))
    else if e = 'u' then parseU rs
    else none

/-- The four hex digits after `\u`; a high surrogate hands over to
`parseULow`, a lone low surrogate fails, anything else is a scalar. -/
def parseU : List Char → Option (List Char × List Char)
  | a :: b :: c2 :: d :: rs2 =>
    match hexVal a, hexVal b, hexVal c2, hexVal d with
    | some va, some vb, some vc, some vd =>
      let v := va * 4096 + vb * 256 + vc * 16 + vd
      if 0xd800 ≤ v ∧ v < 0xdc00 then parseULow v rs2
      else if 0xdc00 ≤ v ∧ v < 0xe000 then none
      else (parseStringBody rs2).map (fun p => (Char.ofNat v :: p.1, p.2))
    | _, _, _, _ => none
  | _ => none

/-- After a high surrogate `v`: require a `\uXXXX` low surrogate and
recombine the pair into one code point. -/
def parseULow (v : Nat) : List Char → Option (List Char × List Char)
  | '\\' :: 'u' :: a2 :: b2 :: c3 :: d2 :: rs3 =>
    match hexVal a2, hexVal b2, hexVal c3, hexVal d2 with
    | some wa, some wb, some wc, some wd =>
      let w := wa * 4096 + wb * 256 + wc * 16 + wd
      if 0xdc00 ≤ w ∧ w < 0xe000 then
        (parseStringBody rs3).map (fun p =>
          (Char.ofNat (0x10000 + (v - 0xd800) * 0x400 + (w - 0xdc00)) :: p.1, p.2))
      else none
    | _, _, _, _ => none
  | _ => none

end

/-- JSON insignificant whitespace, skipped between tokens. -/
def skipWs : List Char → List Char
  | [] => []
  | c :: rest =>
    if c = ' ' ∨ c = '\t' ∨ c = '\n' ∨ c = '\r' then skipWs rest else c :: rest

/-- The element loop of `json.loads` on an array of strings, entered at
the first element (any leading whitespace already skipped): a string
literal, then — after optional whitespace — either `,` and the next
element or `]` closing the array.  Returns the elements and the input
after the closing bracket.  The recursion is bounded by a fuel
argument spent once per element; `loadsStrArray` supplies the input
length as fuel, which always exceeds the element count, since every
element consumes at least two characters. -/
def parseElems : Nat → List Char → Option (List String × List Char)
  | 0, _ => none
  | fuel + 1, l =>
    match l with
    | '"' :: rest =>
      match parseStringBody rest with
      | none => none
      | some (s, r) =>
        match skipWs r with
        | ',' :: r2 => (parseElems fuel (skipWs r2)).map (fun p => (String.mk s :: p.1, p.2))
        | ']' :: r2 => some ([String.mk s], r2)
        | _ => none
    | _ => none

/-- `json.loads` on the ingredient column, restricted to the one JSON
shape the column ever holds — an array of strings: skip leading
whitespace, require `[`, parse the (possibly empty) elements, and
require that only whitespace follows the closing bracket (CPython's
"Extra data" check).  Any other JSON document is modelled as failure. -/
def loadsStrArray (s : String) : Option (List String) :=
  match skipWs s.data with
  | '[' :: rest =>
    match skipWs rest with
    | ']' :: r2 => if skipWs r2 = [] then some [] else none
    | other =>
      match parseElems s.data.length other with
      | some (xs, r3) => if skipWs r3 = [] then some xs else none
      | none => none
  | _ => none

/-! ## The recipe store and the CRUD handlers

The `recipes` table (`RecipeDB` in `src/main.py`) is modelled as a list
of rows in insertion order — SQLite's default result order for this
schema.  The `id` primary key is assigned on insert as one more than
the largest existing id, SQLite's rowid policy for this table.  The
`ingredients` column holds the `json.dumps` text; every read
deserializes it with `json.loads`, modelled by `loadsStrArray`, whose
failure stands for the exception `json.loads` would raise on a
malformed column. -/

/-- A row of the `recipes` table: `id` primary key, `name`,
`ingredients` (serialized text column) and `steps`. -/
structure RecipeDB where
  id : Nat
  name : String
  ingredients : String
  steps : String
deriving Repr, DecidableEq

/-- The persisted state: the rows of the `recipes` table in insertion
order. -/
abbrev DB := List RecipeDB

/-- The API-facing record (`Recipe` response model): as a row, but with
the ingredient list deserialized. -/
structure Recipe where
  id : Nat
  name : String
  ingredients : List String
  steps : String
deriving Repr, DecidableEq

/-- The integer primary key SQLite assigns to a newly inserted row:
one more than the largest id in the table. -/
def freshId (db : DB) : Nat := db.foldr (fun r m => max r.id m) 0 + 1

/-- Project a stored row to the API record, deserializing the
ingredient column; `none` models the `json.loads` exception on a
malformed column. -/
def rowToRecipe (r : RecipeDB) : Option Recipe :=
  (loadsStrArray r.ingredients).map
    (fun ings => { id := r.id, name := r.name, ingredients := ings, steps := r.steps })

/-- `GET /recipes` (`get_recipes`): every stored recipe with
`ingredients` deserialized via `json.loads`; `none` models the
exception if any row's column is malformed. -/
def get_recipes (db : DB) : Option (List Recipe) := db.mapM rowToRecipe

/-- `POST /recipes` (`create_recipe`): serialize the ingredient list
with `json.dumps`, insert the new row, and return the created record
with the refreshed row's column deserialized again for the response.
The response is `none` only if that deserialization fails. -/
def create_recipe (name : String) (ingredients : List String) (steps : String)
    (db : DB) : Option Recipe × DB :=
  let row : RecipeDB :=
    { id := freshId db, name := name, ingredients := dumpsList ingredients, steps := steps }
  (rowToRecipe row, db ++ [row])

/-- Outcome of `DELETE /recipes/{id}`: the success message or the
`HTTPException` status and detail. -/
inductive DeleteResult where
  | ok (message : String)
  | notFound (status : Nat) (detail : String)
deriving Repr, DecidableEq

/-- `DELETE /recipes/{id}` (`delete_recipe`): look up the first row
with the given id; absent → 404 `"Recipe not found"`; otherwise delete
that row and report `"Recipe deleted successfully"`. -/
def delete_recipe (recipe_id : Nat) (db : DB) : DeleteResult × DB :=
  match db.find? (fun r => r.id == recipe_id) with
  | none => (.notFound 404 "Recipe not found", db)
  | some _ => (.ok "Recipe deleted successfully", db.eraseP (fun r => r.id == recipe_id))

/-! ## The AI-suggestion handler

`POST /ai-recipe` (`suggest_ai_recipe`).  Its environment is made
explicit: `apiKey` is `os.getenv("GROQ_API_KEY")`; `provider` is the
outcome of the one outbound `client.chat.completions.create` call
(success text or any raised exception, caught generically); and
`styleChoice` is the index `random.choice` draws from `styles` on the
fallback path.  The handler also receives the injected database
session; the returned triple records the HTTP result, whether the
outbound call was attempted, and the database state afterwards. -/

/-- `", ".join(...)`: the comma-joined ingredient phrase. -/
def joinComma : List String → String
  | [] => ""
  | [x] => x
  | x :: xs => x ++ ", " ++ joinComma xs

/-- Python's `str.capitalize()`: first character upper-cased, the rest
lower-cased (ASCII mappings; Python applies the full Unicode tables,
a difference none of the verified properties depend on). -/
def pyCapitalize (s : String) : String :=
  match s.data with
  | [] => ""
  | c :: rest => String.mk (c.toUpper :: rest.map Char.toLower)

/-- The fixed presentation styles of the fallback path. -/
def styles : List String := ["Roasted", "Pan-Seared", "Gourmet", "Chef's Special"]

/-- The fallback headline ingredient:
`data.ingredients[0].capitalize() if data.ingredients else "Vegetable"`. -/
def mainIngredient : List String → String
  | [] => "Vegetable"
  | i :: _ => pyCapitalize i

/-- The synthesized fallback suggestion text, built from the chosen
style, the headline ingredient and the comma-joined ingredient
phrase. -/
def fallbackText (style : String) (ingredients : List String) : String :=
  "Recipe Name: " ++ style ++ " " ++ mainIngredient ingredients ++ " (Local Chef Mode)\n\n" ++
  "Note: [AI Service Busy - Using Local Intelligence]\n\n" ++
  "Preparation Steps (step by step):\n" ++
  "1. Prepare your " ++ joinComma ingredients ++ ".\n" ++
  "2. Sauté in a hot pan with oil until tender.\n" ++
  "3. Season to taste and serve beautifully.\n"

/-- Outcome of the outbound completion call: the model's text, or any
raised exception (network, provider, timeout — not distinguished,
matching the generic `except Exception`). -/
inductive ProviderOutcome where
  | ok (text : String)
  | exn (message : String)
deriving Repr, DecidableEq

/-- The HTTP result of the suggestion endpoint: an `HTTPException`
or the 200 body `{"suggestion": ...}`. -/
inductive SuggestResult where
  | httpError (status : Nat) (detail : String)
  | suggestion (text : String)
deriving Repr, DecidableEq

/-- Python truthiness of the credential check `if not api_key`:
missing when unset or the empty string. -/
def keyMissing : Option String → Bool
  | none => true
  | some s => s.isEmpty

/-- `POST /ai-recipe` (`suggest_ai_recipe`): with no credential, fail
with the 400 configuration error before any outbound call; otherwise
attempt the completion call, returning its text on success, and on any
exception the locally synthesized fallback text — always a 200.  The
components of the result: the HTTP outcome, whether the outbound call
was attempted, and the database state after the request (the handler
never touches its injected session). -/
def suggest_ai_recipe (apiKey : Option String) (provider : ProviderOutcome)
    (styleChoice : Fin styles.length) (ingredients : List String) (db : DB) :
    SuggestResult × Bool × DB :=
  if keyMissing apiKey then
    (.httpError 400 "GROQ API Key is missing in environment variables.", false, db)
  else
    match provider with
    | .ok text => (.suggestion text, true, db)
    | .exn _ => (.suggestion (fallbackText (styles.get styleChoice) ingredients), true, db)

/-! ## Shape of the fallback text

`linesOf`, `isStepLine` and `stepLineCount` give meaning to "contains
exactly 3 numbered steps": the number of lines of the text that start
with one or more digits followed by `". "`. -/

/-- Split a character list into its newline-separated lines. -/
def linesOf : List Char → List (List Char)
  | [] => [[]]
  | c :: rest =>
    if c = '\n' then [] :: linesOf rest
    else
      match linesOf rest with
      | [] => [[c]]
      | l :: ls => (c :: l) :: ls

/-- A numbered-step line: one or more digits, then a period and a
space. -/
def isStepLine (l : List Char) : Bool :=
  match l.dropWhile Char.isDigit with
  | '.' :: ' ' :: _ => !(l.takeWhile Char.isDigit).isEmpty
  | _ => false

/-- How many numbered-step lines a text contains. -/
def stepLineCount (s : String) : Nat := ((linesOf s.data).filter isStepLine).length

/-- `hexVal` inverts `toHexDigit` on digit values. -/
theorem hexVal_toHexDigit (n : Nat) (h : n < 16) :
    hexVal (toHexDigit n) = some n := by
  interval_cases n <;> decide


/-- `parseU` inverts `hex4` on a non-surrogate value, decoding the
character and handing the rest to the string scanner. -/
theorem parseU_hex4 (n : Nat) (hn : n < 65536) (hns : n < 0xd800 ∨ 0xe000 ≤ n)
    (l : List Char) :
    parseU (hex4 n ++ l) = (parseStringBody l).map (fun p => (Char.ofNat n :: p.1, p.2)) := by
  rw [hex4]
  simp only [List.cons_append, List.nil_append]
  rw [parseU]
  simp only [hexVal_toHexDigit _ (show n / 4096 % 16 < 16 by omega),
    hexVal_toHexDigit _ (show n / 256 % 16 < 16 by omega),
    hexVal_toHexDigit _ (show n / 16 % 16 < 16 by omega),
    hexVal_toHexDigit _ (show n % 16 < 16 by omega)]
  rw [show n / 4096 % 16 * 4096 + n / 256 % 16 * 256 + n / 16 % 16 * 16 + n % 16 = n from by
    omega]
  rw [if_neg (by omega), if_neg (by omega)]

/-- `parseU` on a high-surrogate value hands over to `parseULow`. -/
theorem parseU_hex4_high (v : Nat) (hv1 : 0xd800 ≤ v) (hv2 : v < 0xdc00) (l : List Char) :
    parseU (hex4 v ++ l) = parseULow v l := by
  rw [hex4]
  simp only [List.cons_append, List.nil_append]
  rw [parseU]
  simp only [hexVal_toHexDigit _ (show v / 4096 % 16 < 16 by omega),
    hexVal_toHexDigit _ (show v / 256 % 16 < 16 by omega),
    hexVal_toHexDigit _ (show v / 16 % 16 < 16 by omega),
    hexVal_toHexDigit _ (show v % 16 < 16 by omega)]
  rw [show v / 4096 % 16 * 4096 + v / 256 % 16 * 256 + v / 16 % 16 * 16 + v % 16 = v from by
    omega]
  rw [if_pos (by omega)]

/-- `parseULow` inverts `hex4` on a low-surrogate escape, recombining
the surrogate pair. -/
theorem parseULow_hex4 (v w : Nat) (hw1 : 0xdc00 ≤ w) (hw2 : w < 0xe000) (l : List Char) :
    parseULow v ('\\' :: 'u' :: (hex4 w ++ l)) =
      (parseStringBody l).map (fun p =>
        (Char.ofNat (0x10000 + (v - 0xd800) * 0x400 + (w - 0xdc00)) :: p.1, p.2)) := by
  rw [hex4]
  simp only [List.cons_append, List.nil_append]
  rw [parseULow]
  simp only [hexVal_toHexDigit _ (show w / 4096 % 16 < 16 by omega),
    hexVal_toHexDigit _ (show w / 256 % 16 < 16 by omega),
    hexVal_toHexDigit _ (show w / 16 % 16 < 16 by omega),
    hexVal_toHexDigit _ (show w % 16 < 16 by omega)]
  rw [show w / 4096 % 16 * 4096 + w / 256 % 16 * 256 + w / 16 % 16 * 16 + w % 16 = w from by
    omega]
  rw [if_pos (by omega)]

/-- Parsing inverts escaping one character at a time: the escape
sequence of `c` followed by any input parses to `c` consed onto
whatever the rest parses to. -/
theorem parseStringBody_escapeChar (c : Char) (l : List Char) :
    parseStringBody (escapeChar c ++ l) =
      (parseStringBody l).map (fun p => (c :: p.1, p.2)) := by
  have hvalid : c.toNat < 0xd800 ∨ (0xe000 ≤ c.toNat ∧ c.toNat < 0x110000) := c.valid
  by_cases h1 : c = '"'
  · subst h1; simp [escapeChar, parseStringBody, parseEscape]
  by_cases h2 : c = '\\'
  · subst h2; simp [escapeChar, parseStringBody, parseEscape]
  by_cases h3 : c = '\n'
  · subst h3; simp [escapeChar, parseStringBody, parseEscape]
  by_cases h4 : c = '\t'
  · subst h4; simp [escapeChar, parseStringBody, parseEscape]
  by_cases h5 : c = '\r'
  · subst h5; simp [escapeChar, parseStringBody, parseEscape]
  by_cases h6 : c = '\x08'
  · subst h6; simp [escapeChar, parseStringBody, parseEscape]
  by_cases h7 : c = '\x0c'
  · subst h7; simp [escapeChar, parseStringBody, parseEscape]
  rw [escapeChar, if_neg h1, if_neg h2, if_neg h3, if_neg h4, if_neg h5, if_neg h6, if_neg h7]
  by_cases h8 : c.toNat < 0x20
  · rw [if_pos h8, List.cons_append, List.cons_append, parseStringBody]
    simp only [Char.reduceEq, reduceIte]
    rw [parseEscape]
    simp only [Char.reduceEq, reduceIte]
    rw [parseU_hex4 _ (by omega) (by omega) l, Char.ofNat_toNat]
  rw [if_neg h8]
  by_cases h9 : c.toNat < 0x7f
  · rw [if_pos h9, List.singleton_append, parseStringBody]
    simp only [if_neg h1, if_neg h2, if_neg h8]
  rw [if_neg h9]
  by_cases h10 : c.toNat < 0x10000
  · rw [if_pos h10, List.cons_append, List.cons_append, parseStringBody]
    simp only [Char.reduceEq, reduceIte]
    rw [parseEscape]
    simp only [Char.reduceEq, reduceIte]
    have hns : c.toNat < 0xd800 ∨ 0xe000 ≤ c.toNat := by
      rcases hvalid with hv | ⟨hv1, hv2⟩ <;> omega
    rw [parseU_hex4 _ (by omega) hns l, Char.ofNat_toNat]
  · rw [if_neg h10]
    have hup : c.toNat < 0x110000 := by rcases hvalid with hv | ⟨hv1, hv2⟩ <;> omega
    simp only [List.cons_append, List.append_assoc, List.nil_append]
    rw [parseStringBody]
    simp only [Char.reduceEq, reduceIte]
    rw [parseEscape]
    simp only [Char.reduceEq, reduceIte]
    rw [parseU_hex4_high _ (by omega) (by omega) _]
    rw [parseULow_hex4 _ _ (by omega) (by omega) l]
    rw [show 0x10000 + (0xd800 + (c.toNat - 0x10000) / 0x400 - 0xd800) * 0x400 +
        (0xdc00 + (c.toNat - 0x10000) % 0x400 - 0xdc00) = c.toNat from by omega,
      Char.ofNat_toNat]

/-- Parsing inverts escaping for a whole string body: the escaped
characters followed by the closing quote parse back to exactly those
characters, leaving the input after the quote untouched. -/
theorem parseStringBody_encode (cs : List Char) (l : List Char) :
    parseStringBody ((cs.map escapeChar).flatten ++ '"' :: l) = some (cs, l) := by
  induction cs with
  | nil => simp [parseStringBody]
  | cons c cs ih =>
    simp only [List.map_cons, List.flatten_cons, List.append_assoc]
    rw [parseStringBody_escapeChar, ih]
    rfl

/-- `skipWs` leaves input starting with a non-whitespace character
untouched. -/
theorem skipWs_not_ws (c : Char) (l : List Char)
    (h : ¬(c = ' ' ∨ c = '\t' ∨ c = '\n' ∨ c = '\r')) : skipWs (c :: l) = c :: l := by
  rw [skipWs, if_neg h]

/-- A string literal prepended to input, in scanner-ready form. -/
theorem encodeString_append (x : String) (r : List Char) :
    encodeString x ++ r = '"' :: ((x.data.map escapeChar).flatten ++ '"' :: r) := by
  simp [encodeString]

/-- Rebuilding a string from its character list is the identity. -/
theorem stringMk_data (s : String) : String.mk s.data = s := rfl

/-- A space is skipped. -/
theorem skipWs_space (t : List Char) : skipWs (' ' :: t) = skipWs t := by
  rw [skipWs]
  simp

/-- Input starting with a string literal has no whitespace to skip. -/
theorem skipWs_encodeString_append (y : String) (r : List Char) :
    skipWs (encodeString y ++ r) = encodeString y ++ r := by
  rw [encodeString_append]
  exact skipWs_not_ws _ _ (by simp)

/-- The element loop inverts the printed elements: the first string
literal, the `", "`-separated remaining literals and the closing
bracket parse back to exactly those strings, for any fuel exceeding
the element count. -/
theorem parseElems_encode (xs : List String) (x : String) (fuel : Nat) (l : List Char)
    (hf : xs.length < fuel) :
    parseElems fuel (encodeString x ++
        (xs.map (fun s => ',' :: ' ' :: encodeString s)).flatten ++ ']' :: l) =
      some (x :: xs, l) := by
  induction xs generalizing x fuel l with
  | nil =>
    match fuel, hf with
    | fuel + 1, _ =>
      rw [List.map_nil, List.flatten_nil, List.append_nil, encodeString_append]
      simp only [parseElems]
      rw [parseStringBody_encode]
      simp only [skipWs_not_ws ']' l (by simp), stringMk_data]
  | cons y ys ih =>
    match fuel, hf with
    | fuel + 1, hf =>
      simp only [List.map_cons, List.flatten_cons, List.cons_append, List.append_assoc]
      rw [encodeString_append]
      simp only [parseElems]
      rw [parseStringBody_encode]
      simp only [skipWs_not_ws ',' _ (by simp)]
      rw [skipWs_space, skipWs_encodeString_append]
      rw [← List.append_assoc, ih y fuel l (by simpa using hf)]
      simp [stringMk_data]

/-- The printed separators-and-literals block is at least as long as
its element count. -/
theorem items_flatten_length_ge (ys : List String) :
    ys.length ≤ ((ys.map fun s => ',' :: ' ' :: encodeString s).flatten).length := by
  induction ys with
  | nil => simp
  | cons y ys ih => simp only [List.map_cons, List.flatten_cons, List.length_append,
      List.length_cons, List.length_map]; omega

/-- Round-trip of the ingredient column: `json.loads` inverts
`json.dumps` on every list of strings. -/
theorem loadsStrArray_dumpsList (xs : List String) : loadsStrArray (dumpsList xs) = some xs := by
  match xs with
  | [] => rfl
  | x :: rest =>
    rw [dumpsList]
    simp only [loadsStrArray]
    simp only [skipWs_not_ws '[' _ (by simp)]
    rw [List.append_assoc, skipWs_encodeString_append, encodeString_append]
    split
    next heq => simp at heq
    next other heq =>
      have hp : ∀ fuel : Nat, rest.length < fuel →
          parseElems fuel
            ('"' :: ((x.data.map escapeChar).flatten ++
              '"' :: ((rest.map fun s => ',' :: ' ' :: encodeString s).flatten ++ [']']))) =
            some (x :: rest, []) := by
        intro fuel hf
        rw [show ('"' : Char) :: ((x.data.map escapeChar).flatten ++
            '"' :: ((rest.map fun s => ',' :: ' ' :: encodeString s).flatten ++ [']'])) =
            encodeString x ++ (rest.map fun s => ',' :: ' ' :: encodeString s).flatten ++
              ']' :: [] from by rw [List.append_assoc, encodeString_append]]
        exact parseElems_encode rest x fuel [] hf
      rw [hp _ (by
        have := items_flatten_length_ge rest
        simp only [List.length_cons, List.length_append]
        omega)]
      simp [skipWs]

/-! ## CRUD properties -/

/-- A freshly created row deserializes back to the record it was built
from: the serialization round-trip specialized to `rowToRecipe`. -/
theorem rowToRecipe_create (i : Nat) (name : String) (ings : List String) (steps : String) :
    rowToRecipe ⟨i, name, dumpsList ings, steps⟩ = some ⟨i, name, ings, steps⟩ := by
  simp [rowToRecipe, loadsStrArray_dumpsList]

/-- Listing succeeds whenever every stored row's ingredient column
deserializes. -/
theorem get_recipes_isSome (db : DB) (h : ∀ r ∈ db, (loadsStrArray r.ingredients).isSome) :
    ∃ recs, get_recipes db = some recs := by
  induction db with
  | nil => exact ⟨[], rfl⟩
  | cons r rest ih =>
    obtain ⟨recs, hrecs⟩ := ih (fun x hx => h x (List.mem_cons_of_mem _ hx))
    obtain ⟨ings, hings⟩ := Option.isSome_iff_exists.mp (h r (List.mem_cons_self r rest))
    refine ⟨⟨r.id, r.name, ings, r.steps⟩ :: recs, ?_⟩
    simp only [get_recipes, List.mapM_cons]
    rw [show rowToRecipe r = some ⟨r.id, r.name, ings, r.steps⟩ from by
      simp [rowToRecipe, hings]]
    rw [show rest.mapM rowToRecipe = some recs from hrecs]
    rfl

/-- Listing after appending one row appends that row's record. -/
theorem get_recipes_append (db : DB) (row : RecipeDB) (recs : List Recipe) (rec : Recipe)
    (h1 : get_recipes db = some recs) (h2 : rowToRecipe row = some rec) :
    get_recipes (db ++ [row]) = some (recs ++ [rec]) := by
  simp only [get_recipes, List.mapM_append, List.mapM_cons, List.mapM_nil] at h1 ⊢
  rw [h1, h2]
  rfl

/-- Every stored id is strictly below the id assigned to the next
insert. -/
theorem id_lt_freshId (db : DB) (r : RecipeDB) (h : r ∈ db) : r.id < freshId db := by
  have : r.id ≤ db.foldr (fun r m => max r.id m) 0 := by
    induction db with
    | nil => cases h
    | cons x rest ih =>
      rcases List.mem_cons.mp h with rfl | hmem
      · simp only [List.foldr_cons]
        exact Nat.le_max_left _ _
      · simp only [List.foldr_cons]
        exact le_trans (ih hmem) (Nat.le_max_right _ _)
  simp only [freshId]
  omega

/-- C1: creating a recipe and then listing returns a record whose
ingredient sequence equals the input exactly — same elements, same
order, same duplicates; serialization to the text column followed by
deserialization is a round-trip.  The hypothesis states that the
pre-existing rows were themselves written through the create operation
(their columns deserialize), without which the listing itself would
fail on the malformed row. -/
theorem createThenList_roundtrip (name : String) (ings : List String) (steps : String)
    (db : DB) (h : ∀ r ∈ db, (loadsStrArray r.ingredients).isSome) :
    ∃ rec : Recipe, (create_recipe name ings steps db).1 = some rec ∧
      rec.ingredients = ings ∧
      ∃ recs : List Recipe,
        get_recipes (create_recipe name ings steps db).2 = some recs ∧
        ∃ r ∈ recs, r.id = rec.id ∧ r.ingredients = ings := by
  obtain ⟨recs, hrecs⟩ := get_recipes_isSome db h
  refine ⟨⟨freshId db, name, ings, steps⟩,
    by simp [create_recipe, rowToRecipe_create],
    rfl,
    recs ++ [⟨freshId db, name, ings, steps⟩], ?_, ?_⟩
  · have := get_recipes_append db ⟨freshId db, name, dumpsList ings, steps⟩ recs
      ⟨freshId db, name, ings, steps⟩ hrecs (rowToRecipe_create _ _ _ _)
    simpa [create_recipe] using this
  · exact ⟨⟨freshId db, name, ings, steps⟩, List.mem_append_right _ (by simp), rfl, rfl⟩

/-- C1 witness: the round-trip at a concrete creation over the empty
store. -/
theorem createThenList_roundtrip_witness :
    ∃ rec : Recipe, (create_recipe "Soup" ["carrot", "onion"] "Boil." []).1 = some rec ∧
      rec.ingredients = ["carrot", "onion"] ∧
      ∃ recs : List Recipe,
        get_recipes (create_recipe "Soup" ["carrot", "onion"] "Boil." []).2 = some recs ∧
        ∃ r ∈ recs, r.id = rec.id ∧ r.ingredients = ["carrot", "onion"] :=
  createThenList_roundtrip "Soup" ["carrot", "onion"] "Boil." [] (by simp)

/-- C2: the id returned by create deletes that recipe exactly once —
the first delete returns the fixed success message and restores the
previous store, the second returns 404 with detail "Recipe not
found". -/
theorem create_then_delete_twice (name : String) (ings : List String) (steps : String)
    (db : DB) :
    ∃ rec : Recipe, (create_recipe name ings steps db).1 = some rec ∧
      delete_recipe rec.id (create_recipe name ings steps db).2 =
        (DeleteResult.ok "Recipe deleted successfully", db) ∧
      delete_recipe rec.id (delete_recipe rec.id (create_recipe name ings steps db).2).2 =
        (DeleteResult.notFound 404 "Recipe not found", db) := by
  have hne : ∀ r ∈ db, (r.id == freshId db) = false := by
    intro r hr
    have := id_lt_freshId db r hr
    simp only [beq_eq_false_iff_ne, ne_eq]
    omega
  have hfind : db.find? (fun r => r.id == freshId db) = none :=
    List.find?_eq_none.mpr (fun x hx => by simp [hne x hx])
  have hdel1 : delete_recipe (freshId db) (create_recipe name ings steps db).2 =
      (DeleteResult.ok "Recipe deleted successfully", db) := by
    simp only [create_recipe, delete_recipe, List.find?_append, hfind]
    rw [List.eraseP_append_right _ (by intro b hb; simp [hne b hb])]
    simp [List.find?_cons_of_pos, List.eraseP_cons_of_pos]
  refine ⟨⟨freshId db, name, ings, steps⟩,
    by simp [create_recipe, rowToRecipe_create], hdel1, ?_⟩
  rw [hdel1]
  simp only [delete_recipe, hfind]

/-- C8: `name` and `steps` are stored and returned verbatim — the
record returned by create and the one found in a subsequent listing
carry exactly the supplied strings, with no normalization applied. -/
theorem createThenList_verbatim (name : String) (ings : List String) (steps : String)
    (db : DB) (h : ∀ r ∈ db, (loadsStrArray r.ingredients).isSome) :
    ∃ rec : Recipe, (create_recipe name ings steps db).1 = some rec ∧
      rec.name = name ∧ rec.steps = steps ∧
      ∃ recs : List Recipe,
        get_recipes (create_recipe name ings steps db).2 = some recs ∧
        ∃ r ∈ recs, r.id = rec.id ∧ r.name = name ∧ r.steps = steps := by
  obtain ⟨recs, hrecs⟩ := get_recipes_isSome db h
  refine ⟨⟨freshId db, name, ings, steps⟩,
    by simp [create_recipe, rowToRecipe_create], rfl, rfl,
    recs ++ [⟨freshId db, name, ings, steps⟩], ?_, ?_⟩
  · have := get_recipes_append db ⟨freshId db, name, dumpsList ings, steps⟩ recs
      ⟨freshId db, name, ings, steps⟩ hrecs (rowToRecipe_create _ _ _ _)
    simpa [create_recipe] using this
  · exact ⟨⟨freshId db, name, ings, steps⟩, List.mem_append_right _ (by simp), rfl, rfl, rfl⟩

/-- C8 witness: verbatim `name` and `steps` at a concrete creation,
with mixed case and surrounding spaces preserved. -/
theorem createThenList_verbatim_witness :
    ∃ rec : Recipe, (create_recipe "  MiXeD CaSe " ["x"] " Boil.\n " []).1 = some rec ∧
      rec.name = "  MiXeD CaSe " ∧ rec.steps = " Boil.\n " ∧
      ∃ recs : List Recipe,
        get_recipes (create_recipe "  MiXeD CaSe " ["x"] " Boil.\n " []).2 = some recs ∧
        ∃ r ∈ recs, r.id = rec.id ∧ r.name = "  MiXeD CaSe " ∧ r.steps = " Boil.\n " :=
  createThenList_verbatim "  MiXeD CaSe " ["x"] " Boil.\n " [] (by simp)

/-- C9: deleting by id affects only the record with that id — a
successful delete removes exactly the first row carrying the id and
leaves every other row unchanged in place, and a delete that reports
NotFound leaves the entire store unchanged. -/
theorem delete_frame (i : Nat) (db : DB) :
    ((∀ r ∈ db, r.id ≠ i) →
      delete_recipe i db = (DeleteResult.notFound 404 "Recipe not found", db)) ∧
    (∀ (db₁ : DB) (r : RecipeDB) (db₂ : DB), db = db₁ ++ r :: db₂ → r.id = i →
      (∀ r' ∈ db₁, r'.id ≠ i) →
      delete_recipe i db = (DeleteResult.ok "Recipe deleted successfully", db₁ ++ db₂)) := by
  constructor
  · intro h
    have hfind : db.find? (fun r => r.id == i) = none :=
      List.find?_eq_none.mpr (fun x hx => by simp [h x hx])
    simp [delete_recipe, hfind]
  · intro db₁ r db₂ hdb hr h₁
    subst hdb
    have hfind1 : db₁.find? (fun r => r.id == i) = none :=
      List.find?_eq_none.mpr (fun x hx => by simp [h₁ x hx])
    simp only [delete_recipe, List.find?_append, hfind1]
    rw [List.eraseP_append_right _ (by intro b hb; simp [h₁ b hb])]
    rw [List.eraseP_cons_of_pos (by simp [hr])]
    simp [List.find?_cons_of_pos, hr]

/-- C9 witness: the frame property at a concrete three-row store, and
the no-op at an absent id. -/
theorem delete_frame_witness :
    delete_recipe 2 [⟨1, "A", "[]", "s"⟩, ⟨2, "B", "[]", "t"⟩, ⟨3, "C", "[]", "u"⟩] =
      (DeleteResult.ok "Recipe deleted successfully",
        [⟨1, "A", "[]", "s"⟩, ⟨3, "C", "[]", "u"⟩]) ∧
    delete_recipe 9 [⟨1, "A", "[]", "s"⟩] =
      (DeleteResult.notFound 404 "Recipe not found", [⟨1, "A", "[]", "s"⟩]) :=
  ⟨(delete_frame 2 _).2 [⟨1, "A", "[]", "s"⟩] ⟨2, "B", "[]", "t"⟩ [⟨3, "C", "[]", "u"⟩]
      rfl rfl (by decide),
    (delete_frame 9 _).1 (by decide)⟩

/-! ## Shape of the fallback text: line lemmas -/

/-- A newline-free text is a single line. -/
theorem linesOf_no_nl (a : List Char) (h : '\n' ∉ a) : linesOf a = [a] := by
  induction a with
  | nil => rfl
  | cons c rest ih =>
    have hc : ¬ c = '\n' := fun hh => h (hh ▸ List.mem_cons_self c rest)
    rw [linesOf, if_neg hc, ih (fun hm => h (List.mem_cons_of_mem _ hm))]

/-- Splitting at the first newline: a newline-free prefix is the first
line. -/
theorem linesOf_line_append (a b : List Char) (h : '\n' ∉ a) :
    linesOf (a ++ '\n' :: b) = a :: linesOf b := by
  induction a with
  | nil => simp [linesOf]
  | cons c rest ih =>
    have hc : ¬ c = '\n' := fun hh => h (hh ▸ List.mem_cons_self c rest)
    rw [List.cons_append, linesOf, if_neg hc, ih (fun hm => h (List.mem_cons_of_mem _ hm))]

/-- Peeling one line off the step count. -/
theorem stepCount_line_append (a b : List Char) (h : '\n' ∉ a) :
    ((linesOf (a ++ '\n' :: b)).filter isStepLine).length =
      (if isStepLine a then 1 else 0) + ((linesOf b).filter isStepLine).length := by
  rw [linesOf_line_append a b h, List.filter_cons]
  split <;> simp [Nat.add_comm]

/-- The empty line is not a numbered step. -/
theorem isStepLine_nil : isStepLine [] = false := rfl

/-- A line opening with a non-digit, non-period character is not a
numbered step. -/
theorem isStepLine_notdigit (c : Char) (l : List Char) (h1 : c.isDigit = false)
    (h2 : ¬ c = '.') : isStepLine (c :: l) = false := by
  rw [isStepLine, List.dropWhile_cons, h1]
  simp only [Bool.false_eq_true, if_false]
  split
  next heq => simp at heq; exact absurd heq.1 h2
  next => rfl

/-- A line opening with a digit, a period and a space is a numbered
step. -/
theorem isStepLine_digit_dot_space (c : Char) (l : List Char) (h1 : c.isDigit = true) :
    isStepLine (c :: '.' :: ' ' :: l) = true := by
  rw [isStepLine, List.dropWhile_cons, h1, if_pos rfl, List.dropWhile_cons,
    show (('.' : Char).isDigit) = false from by decide, if_neg (by simp)]
  simp only []
  rw [List.takeWhile_cons, h1, if_pos rfl]
  simp

/-! ## Newline-freeness of the fallback's variable parts -/

/-- `Char.ofNat` at a valid code point evaluates back to it. -/
theorem charToNat_ofNat (n : Nat) (h : n.isValidChar) : (Char.ofNat n).toNat = n := by
  rw [Char.ofNat, dif_pos h]
  rfl

/-- Upper-casing never produces a newline from a non-newline. -/
theorem toUpper_ne_nl (c : Char) (h : ¬ c = '\n') : ¬ c.toUpper = '\n' := by
  intro hh
  simp only [Char.toUpper] at hh
  by_cases hc : c.toNat ≥ 97 ∧ c.toNat ≤ 122
  · rw [if_pos hc] at hh
    have h2 := congrArg Char.toNat hh
    rw [charToNat_ofNat _ (Or.inl (by omega))] at h2
    have h3 : ('\n' : Char).toNat = 10 := rfl
    omega
  · rw [if_neg hc] at hh
    exact h hh

/-- Lower-casing never produces a newline from a non-newline. -/
theorem toLower_ne_nl (c : Char) (h : ¬ c = '\n') : ¬ c.toLower = '\n' := by
  intro hh
  simp only [Char.toLower] at hh
  by_cases hc : c.toNat ≥ 65 ∧ c.toNat ≤ 90
  · rw [if_pos hc] at hh
    have h2 := congrArg Char.toNat hh
    rw [charToNat_ofNat _ (Or.inl (by omega))] at h2
    have h3 : ('\n' : Char).toNat = 10 := rfl
    omega
  · rw [if_neg hc] at hh
    exact h hh

/-- `str.capitalize` preserves newline-freeness. -/
theorem pyCapitalize_no_nl (s : String) (h : '\n' ∉ s.data) :
    '\n' ∉ (pyCapitalize s).data := by
  rw [pyCapitalize]
  cases hs : s.data with
  | nil => simp
  | cons c rest =>
    rw [hs] at h
    intro hm
    have hm' : '\n' ∈ c.toUpper :: rest.map Char.toLower := hm
    rcases List.mem_cons.mp hm' with hm1 | hm2
    · exact toUpper_ne_nl c (fun hh => h (hh ▸ List.mem_cons_self c rest)) hm1.symm
    · obtain ⟨x, hx, hxl⟩ := List.mem_map.mp hm2
      exact toLower_ne_nl x (fun hh => h (hh ▸ List.mem_cons_of_mem _ hx)) hxl

/-- The comma-joined phrase of newline-free ingredients is
newline-free. -/
theorem joinComma_no_nl (ings : List String) (h : ∀ i ∈ ings, '\n' ∉ i.data) :
    '\n' ∉ (joinComma ings).data := by
  induction ings with
  | nil => simp [joinComma]
  | cons x xs ih =>
    cases xs with
    | nil => simpa [joinComma] using h x (by simp)
    | cons y ys =>
      have hexp : joinComma (x :: y :: ys) = x ++ ", " ++ joinComma (y :: ys) := by
        rw [joinComma]
        simp
      rw [hexp]
      simp only [String.data_append, List.mem_append]
      intro hm
      rcases hm with (hm1 | hm2) | hm3
      · exact h x (by simp) hm1
      · simp at hm2
      · exact ih (fun i hi => h i (List.mem_cons_of_mem _ hi)) hm3

/-- The headline ingredient of newline-free ingredients is
newline-free. -/
theorem mainIngredient_no_nl (ings : List String) (h : ∀ i ∈ ings, '\n' ∉ i.data) :
    '\n' ∉ (mainIngredient ings).data := by
  cases ings with
  | nil => decide
  | cons i rest => exact pyCapitalize_no_nl i (h i (by simp))

/-- None of the four presentation styles contains a newline. -/
theorem styles_get_no_nl (style : Fin styles.length) : '\n' ∉ (styles.get style).data := by
  have hall : ∀ s : Fin styles.length, '\n' ∉ (styles.get s).data := by decide
  exact hall style

set_option maxRecDepth 8192 in
/-- The fallback text has exactly 3 numbered-step lines whenever the
style and the ingredient strings are newline-free. -/
theorem stepLineCount_fallback (style : String) (ings : List String)
    (hs : '\n' ∉ style.data) (h : ∀ i ∈ ings, '\n' ∉ i.data) :
    stepLineCount (fallbackText style ings) = 3 := by
  have hM := mainIngredient_no_nl ings h
  have hJ := joinComma_no_nl ings h
  have hdecomp : (fallbackText style ings).data =
      ("Recipe Name: ".data ++ (style.data ++ (' ' :: ((mainIngredient ings).data ++
          " (Local Chef Mode)".data)))) ++ '\n' ::
      (([] : List Char) ++ '\n' ::
      ("Note: [AI Service Busy - Using Local Intelligence]".data ++ '\n' ::
      (([] : List Char) ++ '\n' ::
      ("Preparation Steps (step by step):".data ++ '\n' ::
      (("1. Prepare your ".data ++ ((joinComma ings).data ++ ['.'])) ++ '\n' ::
      ("2. Sauté in a hot pan with oil until tender.".data ++ '\n' ::
      ("3. Season to taste and serve beautifully.".data ++ '\n' :: ([] : List Char)))))))) := by
    simp only [fallbackText, String.data_append, List.append_assoc, List.cons_append,
      List.nil_append]
  have hL1 : ('\n' : Char) ∉ "Recipe Name: ".data ++ (style.data ++ (' ' ::
      ((mainIngredient ings).data ++ " (Local Chef Mode)".data))) := by
    intro hmem
    rcases List.mem_append.mp hmem with h1 | h2
    · revert h1; decide
    rcases List.mem_append.mp h2 with h3 | h4
    · exact hs h3
    rcases List.mem_cons.mp h4 with h5 | h6
    · exact absurd h5 (by decide)
    rcases List.mem_append.mp h6 with h7 | h8
    · exact hM h7
    · revert h8; decide
  have hL6 : ('\n' : Char) ∉ "1. Prepare your ".data ++ ((joinComma ings).data ++ ['.']) := by
    intro hmem
    rcases List.mem_append.mp hmem with h1 | h2
    · revert h1; decide
    rcases List.mem_append.mp h2 with h3 | h4
    · exact hJ h3
    · revert h4; decide
  rw [stepLineCount, hdecomp]
  rw [stepCount_line_append _ _ hL1]
  rw [stepCount_line_append _ _ (by simp)]
  rw [stepCount_line_append _ _ (by decide)]
  rw [stepCount_line_append _ _ (by simp)]
  rw [stepCount_line_append _ _ (by decide)]
  rw [stepCount_line_append _ _ hL6]
  rw [stepCount_line_append _ _ (by decide)]
  rw [stepCount_line_append _ _ (by decide)]
  rw [show isStepLine ("Recipe Name: ".data ++ (style.data ++ (' ' ::
      ((mainIngredient ings).data ++ " (Local Chef Mode)".data)))) = false from
    isStepLine_notdigit 'R' _ (by decide) (by decide)]
  rw [show isStepLine ("1. Prepare your ".data ++ ((joinComma ings).data ++ ['.'])) = true from
    isStepLine_digit_dot_space '1' _ (by decide)]
  norm_num [isStepLine_nil, linesOf]
  rw [show isStepLine ("Note: [AI Service Busy - Using Local Intelligence]".data) = false from
    by decide]
  rw [show isStepLine ("Preparation Steps (step by step):".data) = false from by decide]
  rw [show isStepLine ("2. Sauté in a hot pan with oil until tender.".data) = true from by decide]
  rw [show isStepLine ("3. Season to taste and serve beautifully.".data) = true from by decide]
  norm_num [isStepLine]

/-- The fallback text split at its embedded joined-ingredient phrase,
with the `"Preparation Steps"` marker as its own segment. -/
theorem fallback_decomp (style : String) (ings : List String) :
    fallbackText style ings =
      ("Recipe Name: " ++ style ++ " " ++ mainIngredient ings ++ " (Local Chef Mode)\n\n" ++
        "Note: [AI Service Busy - Using Local Intelligence]\n\n" ++
        "Preparation Steps" ++ " (step by step):\n" ++ "1. Prepare your ") ++
      joinComma ings ++
      (".\n" ++ "2. Sauté in a hot pan with oil until tender.\n" ++
        "3. Season to taste and serve beautifully.\n") := by
  apply String.ext
  simp only [fallbackText, String.data_append, List.append_assoc]
  rfl

/-- Every ingredient occurs inside the comma-joined phrase. -/
theorem mem_infix_joinComma (i : String) (ings : List String) (h : i ∈ ings) :
    i.data <:+: (joinComma ings).data := by
  induction ings with
  | nil => cases h
  | cons x xs ih =>
    cases xs with
    | nil =>
      rcases List.mem_cons.mp h with rfl | h2
      · exact List.infix_refl _
      · cases h2
    | cons y ys =>
      have hexp : joinComma (x :: y :: ys) = x ++ ", " ++ joinComma (y :: ys) := by
        rw [joinComma]
        simp
      rcases List.mem_cons.mp h with rfl | hmem
      · exact ⟨[], (", " ++ joinComma (y :: ys)).data, by simp [hexp, String.data_append]⟩
      · exact (ih hmem).trans
          ⟨(x ++ ", ").data, [], by simp [hexp, String.data_append]⟩

/-! ## Suggestion-endpoint properties -/

/-- C3: with no provider credential configured, the suggestion endpoint
returns the 400 configuration error with the exact detail string, for
every ingredient list, and the outbound completion call is never
attempted. -/
theorem suggest_missing_key (key : Option String) (prov : ProviderOutcome)
    (style : Fin styles.length) (ings : List String) (db : DB)
    (h : keyMissing key = true) :
    suggest_ai_recipe key prov style ings db =
      (SuggestResult.httpError 400 "GROQ API Key is missing in environment variables.",
        false, db) := by
  simp [suggest_ai_recipe, h]

/-- C3 witness: the configuration error at an unset credential with a
concrete ingredient list. -/
theorem suggest_missing_key_witness :
    suggest_ai_recipe none (.ok "text") ⟨0, by decide⟩ ["carrot", "onion"] [] =
      (SuggestResult.httpError 400 "GROQ API Key is missing in environment variables.",
        false, []) :=
  suggest_missing_key none (.ok "text") ⟨0, by decide⟩ ["carrot", "onion"] [] (by decide)

/-- C4: with a credential configured, any exception of the outbound
completion call — whatever its message — yields the 200 response
carrying the locally synthesized fallback text; the provider failure is
never surfaced. -/
theorem suggest_provider_failure (key : Option String) (e : String)
    (style : Fin styles.length) (ings : List String) (db : DB)
    (h : keyMissing key = false) :
    suggest_ai_recipe key (.exn e) style ings db =
      (SuggestResult.suggestion (fallbackText (styles.get style) ings), true, db) := by
  simp [suggest_ai_recipe, h]

/-- C4 witness: the fallback response at a concrete provider error. -/
theorem suggest_provider_failure_witness :
    suggest_ai_recipe (some "gsk-123") (.exn "connection error") ⟨1, by decide⟩
        ["tomato"] [] =
      (SuggestResult.suggestion (fallbackText (styles.get ⟨1, by decide⟩) ["tomato"]),
        true, []) :=
  suggest_provider_failure (some "gsk-123") "connection error" ⟨1, by decide⟩ ["tomato"] []
    (by decide)

/-- C10: the suggestion endpoint neither reads nor writes the recipe
store — its response and call behavior are identical across any two
database states, and the database after the call equals the database
before it. -/
theorem suggest_ignores_db (key : Option String) (prov : ProviderOutcome)
    (style : Fin styles.length) (ings : List String) (db db' : DB) :
    (suggest_ai_recipe key prov style ings db).1 =
        (suggest_ai_recipe key prov style ings db').1 ∧
      (suggest_ai_recipe key prov style ings db).2.1 =
        (suggest_ai_recipe key prov style ings db').2.1 ∧
      (suggest_ai_recipe key prov style ings db).2.2 = db := by
  rcases prov <;> by_cases h : keyMissing key <;> simp [suggest_ai_recipe, h]

/-- C6 counterexample: two fallback invocations with the same
ingredient list but different drawn styles produce different
responses — the fallback is not a deterministic function of the
ingredient list alone, because `random.choice` draws the style. -/
theorem fallback_style_nondet :
    (suggest_ai_recipe (some "gsk-123") (.exn "timeout") ⟨0, by decide⟩ ["tomato"] []).1 ≠
      (suggest_ai_recipe (some "gsk-123") (.exn "timeout") ⟨1, by decide⟩ ["tomato"] []).1 := by
  decide

/-- C6 amended: the fallback text is deterministic given the ingredient
list and the drawn presentation style — two invocations that both take
the fallback path with the same ingredients and the same drawn style
produce identical responses, whatever the credential value, the
exception raised, or the database state. -/
theorem fallback_deterministic_given_style (key₁ key₂ : Option String) (e₁ e₂ : String)
    (style : Fin styles.length) (ings : List String) (db₁ db₂ : DB)
    (h₁ : keyMissing key₁ = false) (h₂ : keyMissing key₂ = false) :
    (suggest_ai_recipe key₁ (.exn e₁) style ings db₁).1 =
      (suggest_ai_recipe key₂ (.exn e₂) style ings db₂).1 := by
  simp [suggest_ai_recipe, h₁, h₂]

/-- C6 witness: identical fallback responses at concrete distinct
credentials, exceptions and database states but the same style draw. -/
theorem fallback_deterministic_given_style_witness :
    (suggest_ai_recipe (some "k1") (.exn "timeout") ⟨2, by decide⟩ ["rice"] []).1 =
      (suggest_ai_recipe (some "k2") (.exn "http 500") ⟨2, by decide⟩ ["rice"]
        [⟨1, "Soup", "[]", "Boil."⟩]).1 :=
  fallback_deterministic_given_style (some "k1") (some "k2") "timeout" "http 500"
    ⟨2, by decide⟩ ["rice"] [] [⟨1, "Soup", "[]", "Boil."⟩] (by decide) (by decide)

/-- C7: the fallback path with an empty ingredient list does not fail —
the guarded first-ingredient access substitutes the placeholder
`"Vegetable"` as the headline ingredient and the endpoint still returns
a 200 fallback suggestion. -/
theorem suggest_fallback_empty (key : Option String) (e : String)
    (style : Fin styles.length) (db : DB) (h : keyMissing key = false) :
    suggest_ai_recipe key (.exn e) style [] db =
      (SuggestResult.suggestion (fallbackText (styles.get style) []), true, db) ∧
    mainIngredient [] = "Vegetable" :=
  ⟨by simp [suggest_ai_recipe, h], rfl⟩

/-- C7 witness: the empty-list fallback at a concrete invocation. -/
theorem suggest_fallback_empty_witness :
    suggest_ai_recipe (some "gsk-123") (.exn "boom") ⟨3, by decide⟩ [] [] =
      (SuggestResult.suggestion (fallbackText (styles.get ⟨3, by decide⟩) []), true, []) ∧
    mainIngredient [] = "Vegetable" :=
  suggest_fallback_empty (some "gsk-123") "boom" ⟨3, by decide⟩ [] (by decide)

/-- C5 amended: on the fallback path the response carries the
synthesized text; that text contains the `"Preparation Steps"` marker,
embeds the comma-joined ingredient phrase and hence every ingredient,
and — whenever the ingredient strings contain no newline — has exactly
3 numbered-step lines. -/
theorem fallback_shape (key : Option String) (e : String) (style : Fin styles.length)
    (ings : List String) (db : DB) (hk : keyMissing key = false) :
    ∃ t : String,
      (suggest_ai_recipe key (.exn e) style ings db).1 = SuggestResult.suggestion t ∧
      ((∀ i ∈ ings, '\n' ∉ i.data) → stepLineCount t = 3) ∧
      "Preparation Steps".data <:+: t.data ∧
      (joinComma ings).data <:+: t.data ∧
      ∀ i ∈ ings, i.data <:+: t.data := by
  have hjoin : (joinComma ings).data <:+: (fallbackText (styles.get style) ings).data :=
    ⟨("Recipe Name: " ++ styles.get style ++ " " ++ mainIngredient ings ++
        " (Local Chef Mode)\n\n" ++ "Note: [AI Service Busy - Using Local Intelligence]\n\n" ++
        "Preparation Steps" ++ " (step by step):\n" ++ "1. Prepare your ").data,
      (".\n" ++ "2. Sauté in a hot pan with oil until tender.\n" ++
        "3. Season to taste and serve beautifully.\n").data,
      by rw [fallback_decomp]; simp [String.data_append, List.append_assoc]⟩
  refine ⟨fallbackText (styles.get style) ings, ?_, ?_, ?_, hjoin, ?_⟩
  · simp [suggest_ai_recipe, hk]
  · exact fun h => stepLineCount_fallback _ ings (styles_get_no_nl style) h
  · exact ⟨("Recipe Name: " ++ styles.get style ++ " " ++ mainIngredient ings ++
        " (Local Chef Mode)\n\n" ++
        "Note: [AI Service Busy - Using Local Intelligence]\n\n").data,
      ((" (step by step):\n" ++ "1. Prepare your ") ++ joinComma ings ++
        (".\n" ++ "2. Sauté in a hot pan with oil until tender.\n" ++
          "3. Season to taste and serve beautifully.\n")).data,
      by rw [fallback_decomp]; simp [String.data_append, List.append_assoc]⟩
  · exact fun i hi => (mem_infix_joinComma i ings hi).trans hjoin

/-- C5 witness: the amended shape at a concrete newline-free
invocation. -/
theorem fallback_shape_witness :
    ∃ t : String,
      (suggest_ai_recipe (some "gsk-123") (.exn "timeout") ⟨0, by decide⟩
          ["carrot", "onion"] []).1 = SuggestResult.suggestion t ∧
      ((∀ i ∈ ["carrot", "onion"], '\n' ∉ i.data) → stepLineCount t = 3) ∧
      "Preparation Steps".data <:+: t.data ∧
      (joinComma ["carrot", "onion"]).data <:+: t.data ∧
      ∀ i ∈ ["carrot", "onion"], i.data <:+: t.data :=
  fallback_shape (some "gsk-123") "timeout" ⟨0, by decide⟩ ["carrot", "onion"] [] (by decide)

/-- C5 counterexample: an ingredient string containing a newline and a
numbered prefix makes the fallback text carry more than 3
numbered-step lines (here 5: the injected line appears in both the
headline and the joined phrase), refuting the unconditional count. -/
theorem fallback_shape_cex :
    (suggest_ai_recipe (some "gsk-123") (.exn "timeout") ⟨0, by decide⟩ ["x\n4. y"] []).1 =
      SuggestResult.suggestion (fallbackText (styles.get ⟨0, by decide⟩) ["x\n4. y"]) ∧
    stepLineCount (fallbackText (styles.get ⟨0, by decide⟩) ["x\n4. y"]) ≠ 3 := by
  constructor
  · rfl
  · decide
